import Mathlib

/-!
Verification of the eule message-retention bot (src/main.go) against its
specification. The Go program is shallowly embedded: durations and instants
are `Int` nanoseconds (Go's `time.Duration` / `time.Time` arithmetic), the
task registry map is an association list, and the Discord client is modelled
by a pure history (for the success path) or by call-result oracles (for the
error-handling claims). Calls issued to the message store are reified as a
`StoreCall` trace.
-/

namespace Eule

/-- One hour in nanoseconds, as Go's `time.Hour`. -/
def timeHour : Int := 3600000000000

/-- The bulk-delete retention threshold `14*24*time.Hour` from `purgeChannel`. -/
def retentionNanos : Int := 14 * 24 * timeHour

/-- Go struct `PurgeTask{Interval, NextPurge}` from src/main.go. -/
structure PurgeTask where
  Interval : Int
  NextPurge : Int
deriving DecidableEq

/-- The global `purgeTasks` map, embedded as an association list from
channel ID to task. -/
abbrev TaskRegistry := List (String × PurgeTask)

/-- Go map assignment `purgeTasks[channelID] = task`: replace the entry if
the key is present, otherwise append it. -/
def setTask (reg : TaskRegistry) (channelID : String) (t : PurgeTask) : TaskRegistry :=
  if reg.any (fun p => p.1 = channelID) then
    reg.map (fun p => if p.1 = channelID then (channelID, t) else p)
  else
    reg ++ [(channelID, t)]

/-- Go map read `purgeTasks[channelID]`. -/
def lookupTask (reg : TaskRegistry) (channelID : String) : Option PurgeTask :=
  (reg.find? (fun p => p.1 = channelID)).map Prod.snd

/-- Two's-complement wrap into the int64 range, as Go's defined overflow
behavior for signed integer arithmetic. -/
def wrapInt64 (x : Int) : Int :=
  (x + 2 ^ 63) % 2 ^ 64 - 2 ^ 63

/-- Go multiplication of `time.Duration` values: an int64 multiplication
that wraps on overflow. -/
def durMul (a b : Int) : Int := wrapInt64 (a * b)

/-- Wrapping is the identity on products already inside the int64 range. -/
lemma wrapInt64_eq_self (x : Int) (hlo : -(2 ^ 63) ≤ x) (hhi : x < 2 ^ 63) :
    wrapInt64 x = x := by
  unfold wrapInt64
  omega

/-- `handleSetPurgeInterval` from src/main.go: switch on the unit, computing
`interval` as `time.Duration(intervalValue) * time.Hour` (or `* 24` more
for days) — int64 products that wrap on overflow; on an unrecognized unit
return before touching the registry or responding; else store
`PurgeTask{interval, now + interval}` and respond with the confirmation
string. Returns the updated registry and the optional interaction
response. -/
def handleSetPurgeInterval (now : Int) (reg : TaskRegistry) (channelID : String)
    (intervalValue : Int) (unit : String) : TaskRegistry × Option String :=
  match unit with
  | "hours" =>
      let interval := durMul intervalValue timeHour
      (setTask reg channelID ⟨interval, now + interval⟩,
        some ("Purge interval set to " ++ toString intervalValue ++ " " ++ unit
          ++ " for this channel."))
  | "days" =>
      let interval := durMul (durMul intervalValue timeHour) 24
      (setTask reg channelID ⟨interval, now + interval⟩,
        some ("Purge interval set to " ++ toString intervalValue ++ " " ++ unit
          ++ " for this channel."))
  | _ => (reg, none)

/-- The per-task body of `purgeChecker`'s tick: when `now.After(task.NextPurge)`
(strict `>`), reschedule `NextPurge = now.Add(task.Interval)`; otherwise
leave the task alone. -/
def advanceTask (now : Int) (t : PurgeTask) : PurgeTask :=
  if now > t.NextPurge then ⟨t.Interval, now + t.Interval⟩ else t

/-- One tick of `purgeChecker`: scan the registry, returning the updated
registry (every due task advanced in place) and the list of channel IDs for
which `go purgeChannel` was launched. The registry update is a pure function
of `now` and the registry; no purge result feeds back into it. -/
def purgeCheckerTick (now : Int) (reg : TaskRegistry) : TaskRegistry × List String :=
  (reg.map (fun p => (p.1, advanceTask now p.2)),
   (reg.filter (fun p => decide (now > p.2.NextPurge))).map Prod.fst)

/- Registry helper lemmas. -/

lemma find?_setTask_replace (c : String) (t : PurgeTask) :
    ∀ reg : TaskRegistry, reg.any (fun p => p.1 = c) = true →
      (reg.map (fun p => if p.1 = c then (c, t) else p)).find? (fun p => p.1 = c)
        = some (c, t) := by
  intro reg
  induction reg with
  | nil => simp
  | cons p l ih =>
      intro h
      by_cases hp : p.1 = c
      · simp [hp, List.find?]
      · simp only [List.any_cons, Bool.or_eq_true, decide_eq_true_eq] at h
        rcases h with h | h
        · exact absurd h hp
        · simp only [List.map_cons, if_neg hp, List.find?, decide_eq_false hp]
          exact ih h

lemma find?_setTask_append (c : String) (t : PurgeTask) :
    ∀ reg : TaskRegistry, reg.any (fun p => p.1 = c) = false →
      (reg ++ [(c, t)]).find? (fun p => p.1 = c) = some (c, t) := by
  intro reg
  induction reg with
  | nil => simp [List.find?]
  | cons p l ih =>
      intro h
      simp only [List.any_cons, Bool.or_eq_false_iff, decide_eq_false_iff_not] at h
      simp only [List.cons_append, List.find?, decide_eq_false h.1]
      exact ih h.2

/-- After a `setTask`, looking up the written channel yields exactly the
written task. -/
lemma lookupTask_setTask (reg : TaskRegistry) (c : String) (t : PurgeTask) :
    lookupTask (setTask reg c t) c = some t := by
  unfold lookupTask setTask
  by_cases h : reg.any (fun p => p.1 = c)
  · rw [if_pos h, find?_setTask_replace c t reg h]
    rfl
  · rw [if_neg h, find?_setTask_append c t reg (Bool.eq_false_iff.mpr h)]
    rfl

/-- A Discord message as consumed by `purgeChannel`: its ID and creation
timestamp (`msg.Timestamp`), in nanoseconds. -/
structure Message where
  ID : String
  Timestamp : Int
deriving DecidableEq

/-- A call issued to the message store, reified:
`s.ChannelMessages(channelID, 100, beforeID, "", "")`,
`s.ChannelMessageDelete(channelID, id)`, or
`s.ChannelMessagesBulkDelete(channelID, ids)`. -/
inductive StoreCall where
  | channelMessages (beforeID : String)
  | messageDelete (id : String)
  | bulkDelete (ids : List String)
deriving DecidableEq

/-- Discord's `ChannelMessages(channelID, limit, beforeID, "", "")` over a
pure channel history (newest first): with the empty cursor, the newest
`limit` messages; otherwise the `limit` messages strictly after the one
whose ID is `beforeID`. -/
def channelMessagesOf (history : List Message) (limit : Nat) (beforeID : String) :
    List Message :=
  if beforeID = "" then history.take limit
  else (((history.dropWhile (fun m => m.ID != beforeID)).drop 1).take limit)

/-- The pagination loop of `purgeChannel` (success path): fetch up to 100
messages before the cursor; stop on an empty page, accumulate, set
`beforeID` to the page's last (oldest) message, and stop after a page of
fewer than 100. Returns the trace of fetches as (cursor used, page
returned) pairs; `fuel` bounds the iteration so the function is total. -/
def fetchPages (history : List Message) : Nat → String →
    List (String × List Message)
  | 0, _ => []
  | fuel + 1, beforeID =>
    let msgs := channelMessagesOf history 100 beforeID
    if h : msgs = [] then [(beforeID, msgs)]
    else if msgs.length < 100 then [(beforeID, msgs)]
    else (beforeID, msgs) :: fetchPages history fuel (msgs.getLast h).ID

/-- The inner loop of one chunk iteration of `purgeChannel`: walk the chunk,
collecting the IDs of messages younger than the 14-day threshold
(`time.Since(t) < 14*24*time.Hour`, i.e. `now - Timestamp < retentionNanos`)
into `messageIDs`, and issuing an individual `ChannelMessageDelete` for each
message at or past the threshold. Returns (messageIDs, calls issued). -/
def chunkLoop (now : Int) : List Message → List String × List StoreCall
  | [] => ([], [])
  | m :: rest =>
    let (ids, calls) := chunkLoop now rest
    if now - m.Timestamp < retentionNanos then (m.ID :: ids, calls)
    else (ids, StoreCall.messageDelete m.ID :: calls)

/-- One chunk iteration of `purgeChannel`: the individual deletes for old
messages, then one bulk delete if `len(messageIDs) > 1`, one individual
delete if `len(messageIDs) == 1`, and nothing otherwise. -/
def chunkCalls (now : Int) (chunk : List Message) : List StoreCall :=
  let (messageIDs, calls) := chunkLoop now chunk
  match messageIDs with
  | [] => calls
  | [id] => calls ++ [StoreCall.messageDelete id]
  | ids => calls ++ [StoreCall.bulkDelete ids]

/-- The chunking of the accumulated history: the Go loop
`for i := 0; i < len; i += 100` slices `messages[i:min(i+100, len)]`, one
iteration per `i = 100*k` with `k < ⌈len/100⌉`. -/
def chunks100 (l : List Message) : List (List Message) :=
  (List.range ((l.length + 99) / 100)).map (fun k => (l.drop (100 * k)).take 100)

/-- The deletion phase of `purgeChannel`: process the accumulated history in
chunks of 100, concatenating each chunk's calls in order. -/
def purgeDeleteCalls (now : Int) (messages : List Message) : List StoreCall :=
  ((chunks100 messages).map (chunkCalls now)).flatten

/-- A whole `purgeChannel` run on a pure history: the fetch calls of the
pagination loop followed by the deletion phase over the accumulated
messages. -/
def purgeChannelRun (now : Int) (history : List Message) (fuel : Nat) :
    List StoreCall :=
  let trace := fetchPages history fuel ""
  let messages := (trace.map Prod.snd).flatten
  trace.map (fun p => StoreCall.channelMessages p.1) ++ purgeDeleteCalls now messages

/-- `chunkLoop` computes exactly the age partition: `messageIDs` is the IDs
of the young messages in order, and the issued calls are individual deletes
of the old messages in order. -/
lemma chunkLoop_eq_partition (now : Int) (chunk : List Message) :
    chunkLoop now chunk =
      ((chunk.filter (fun m => decide (now - m.Timestamp < retentionNanos))).map
          (fun m => m.ID),
       (chunk.filter (fun m => decide (¬(now - m.Timestamp < retentionNanos)))).map
          (fun m => StoreCall.messageDelete m.ID)) := by
  induction chunk with
  | nil => simp [chunkLoop]
  | cons m rest ih =>
      by_cases hm : now - m.Timestamp < retentionNanos
      · simp [chunkLoop, ih, hm, List.filter]
      · simp [chunkLoop, ih, hm, List.filter]

/-- Every chunk produced by `chunks100` has at most 100 messages. -/
lemma chunks100_length_le (chunk : List Message) (l : List Message)
    (h : chunk ∈ chunks100 l) : chunk.length ≤ 100 := by
  unfold chunks100 at h
  rcases List.mem_map.mp h with ⟨k, _, rfl⟩
  simp

/-- Pagination contract as worded in the spec, the refinement target for
C2: repeatedly take the next up-to-100 most recent not-yet-seen messages as
a page, record the fetch as (cursor, page), stop when a fetch returns fewer
than the page size or zero messages, and otherwise continue with the
previous page's oldest message as the next `beforeID` cursor. -/
def paginateSpecModel (cur : String) (suf : List Message) :
    List (String × List Message) :=
  if h : (suf.take 100).length < 100 then [(cur, suf.take 100)]
  else
    have hne : suf.take 100 ≠ [] := by
      intro he
      rw [he] at h
      simp at h
    (cur, suf.take 100) :: paginateSpecModel (((suf.take 100).getLast hne).ID) (suf.drop 100)
termination_by suf.length
decreasing_by
  simp_all only [List.length_take, List.length_drop, not_lt]
  omega

/-- Dropping while the ID differs stops exactly at the first occurrence of
the searched message. -/
lemma dropWhile_ne_id (y : Message) :
    ∀ (xs ys : List Message), (∀ x ∈ xs, x.ID ≠ y.ID) →
      (xs ++ y :: ys).dropWhile (fun m => m.ID != y.ID) = y :: ys := by
  intro xs
  induction xs with
  | nil =>
      intro ys _
      simp [List.dropWhile_cons]
  | cons x xs ih =>
      intro ys h
      have hx : x.ID ≠ y.ID := h x (List.mem_cons_self x xs)
      simp only [List.cons_append, List.dropWhile_cons]
      rw [if_pos (by simpa using hx)]
      exact ih ys (fun a ha => h a (List.mem_cons_of_mem x ha))

/-- The fetch after a cursor returns the next up-to-100 not-yet-seen
messages, provided no earlier message shares the cursor's ID. -/
lemma channelMessagesOf_after (history pre suf : List Message) (m : Message)
    (hh : history = pre ++ m :: suf) (hpre : ∀ x ∈ pre, x.ID ≠ m.ID)
    (hm : m.ID ≠ "") :
    channelMessagesOf history 100 m.ID = suf.take 100 := by
  unfold channelMessagesOf
  rw [if_neg hm, hh, dropWhile_ne_id m pre suf hpre]
  simp

/-- The pagination loop of `purgeChannel` refines the spec's pagination
contract: given distinct nonempty message IDs and enough fuel, the fetch
trace starting from any position (cursor = "" at the start, or the ID of
the last already-seen message) is exactly the spec's. -/
lemma fetchPages_eq_paginateSpecModel :
    ∀ (fuel : Nat) (pre suf : List Message) (cur : String) (history : List Message),
      history = pre ++ suf →
      (history.map (fun m => m.ID)).Nodup →
      (∀ m ∈ history, m.ID ≠ "") →
      suf.length + 1 ≤ fuel →
      ((cur = "" ∧ pre = []) ∨ (∃ pre' m, pre = pre' ++ [m] ∧ cur = m.ID)) →
      fetchPages history fuel cur = paginateSpecModel cur suf := by
  intro fuel
  induction fuel with
  | zero => intro pre suf cur history _ _ _ hfuel _; omega
  | succ f ih =>
      intro pre suf cur history hh hnd hne hfuel hcur
      have hpage : channelMessagesOf history 100 cur = suf.take 100 := by
        rcases hcur with ⟨hcur, hpre⟩ | ⟨pre', m, hpre, hcur⟩
        · subst hcur
          subst hpre
          simp only [List.nil_append] at hh
          subst hh
          unfold channelMessagesOf
          rw [if_pos rfl]
        · subst hcur
          have hh' : history = pre' ++ m :: suf := by
            rw [hh, hpre]
            simp
          have hmhist : m ∈ history := by
            rw [hh']
            exact List.mem_append.mpr (Or.inr (List.mem_cons_self m suf))
          have hprene : ∀ x ∈ pre', x.ID ≠ m.ID := by
            intro x hx
            have := hnd
            rw [hh'] at this
            simp only [List.map_append, List.map_cons] at this
            rcases List.nodup_append.mp this with ⟨_, _, hdisj⟩
            intro he
            exact hdisj (List.mem_map.mpr ⟨x, hx, he⟩) (List.mem_cons_self m.ID _)
          exact channelMessagesOf_after history pre' suf m hh' hprene (hne m hmhist)
      rw [fetchPages, paginateSpecModel]
      simp only [hpage]
      by_cases hz : suf.take 100 = []
      · rw [dif_pos hz, dif_pos (by rw [hz]; simp)]
      · rw [dif_neg hz]
        by_cases hlt : (suf.take 100).length < 100
        · rw [if_pos hlt, dif_pos hlt]
        · rw [if_neg hlt, dif_neg hlt]
          congr 1
          have h100 : 100 ≤ suf.length := by
            simp only [List.length_take, not_lt] at hlt
            omega
          refine ih (pre ++ suf.take 100) (suf.drop 100)
            ((suf.take 100).getLast hz).ID history ?_ hnd hne ?_ ?_
          · rw [hh, List.append_assoc, List.take_append_drop]
          · simp only [List.length_drop]
            omega
          · right
            exact ⟨pre ++ (suf.take 100).dropLast, (suf.take 100).getLast hz,
              by rw [List.append_assoc, List.dropLast_append_getLast hz], rfl⟩

/-- The pages of the spec pagination cover exactly the whole history. -/
lemma paginateSpecModel_flatten (cur : String) (suf : List Message) :
    ((paginateSpecModel cur suf).map Prod.snd).flatten = suf := by
  induction cur, suf using paginateSpecModel.induct with
  | case1 cur suf h =>
      rw [paginateSpecModel, dif_pos h]
      simp only [List.length_take] at h
      simp [List.take_of_length_le (by omega : suf.length ≤ 100)]
  | case2 cur suf h hne ih =>
      rw [paginateSpecModel, dif_neg h]
      simp only [List.map_cons, List.flatten_cons, ih, List.take_append_drop]

/-- C2: a purge run's pagination refines the spec's contract (pages of up
to 100 most recent not-yet-seen messages walking backward with the previous
page's oldest message as `beforeID`, stopping exactly on a page of fewer
than 100 or zero messages): the fetch trace equals the spec model, its
pages concatenate to the full history, and on an empty channel the run
makes exactly one empty-page fetch and issues zero delete calls. -/
theorem C2_pagination_refines_spec (now : Int) (history : List Message)
    (fuel : Nat) (hnd : (history.map (fun m => m.ID)).Nodup)
    (hne : ∀ m ∈ history, m.ID ≠ "")
    (hfuel : history.length + 1 ≤ fuel) :
    fetchPages history fuel "" = paginateSpecModel "" history ∧
    ((fetchPages history fuel "").map Prod.snd).flatten = history ∧
    (history = [] →
      fetchPages history fuel "" = [("", [])] ∧
      purgeChannelRun now history fuel = [StoreCall.channelMessages ""]) := by
  have hmain : fetchPages history fuel "" = paginateSpecModel "" history :=
    fetchPages_eq_paginateSpecModel fuel [] history "" history (by simp) hnd hne
      hfuel (Or.inl ⟨rfl, rfl⟩)
  refine ⟨hmain, ?_, ?_⟩
  · rw [hmain]
    exact paginateSpecModel_flatten "" history
  · intro hhist
    subst hhist
    rcases fuel with _ | f
    · omega
    · refine ⟨rfl, ?_⟩
      simp [purgeChannelRun, purgeDeleteCalls, chunks100,
        show fetchPages [] (f + 1) "" = [("", [])] from rfl]

/-- C2 witness: a one-message channel with enough fuel. -/
theorem C2_pagination_refines_spec_witness :
    fetchPages [Message.mk "a" 0] 2 "" = paginateSpecModel "" [Message.mk "a" 0] ∧
    ((fetchPages [Message.mk "a" 0] 2 "").map Prod.snd).flatten = [Message.mk "a" 0] ∧
    ([Message.mk "a" 0] = ([] : List Message) →
      fetchPages [Message.mk "a" 0] 2 "" = [("", [])] ∧
      purgeChannelRun 0 [Message.mk "a" 0] 2 = [StoreCall.channelMessages ""]) :=
  C2_pagination_refines_spec 0 [Message.mk "a" 0] 2 (by decide) (by decide) (by decide)

/-- A concrete channel history of `n` messages with distinct IDs, all with
timestamp 0 (so all younger than 14 days at `now = 0`). -/
def mkMsgs (n : Nat) : List Message :=
  (List.range n).map (fun k => { ID := toString k, Timestamp := 0 })

/-- C1: each chunk processed by the deletion phase has at most 100 messages
and is partitioned by age against the 14-day threshold: every message at or
older than the threshold gets one individual delete (in chunk order), and
the bulk-eligible partition (messages younger than the threshold) is then
deleted with exactly one bulk-delete call when it has more than one message,
one individual delete when it has exactly one, and no call when empty. -/
theorem C1_chunk_partition (now : Int) (messages : List Message)
    (chunk : List Message) (hmem : chunk ∈ chunks100 messages) :
    chunk.length ≤ 100 ∧
    chunkCalls now chunk =
      (chunk.filter (fun m => decide (¬(now - m.Timestamp < retentionNanos)))).map
          (fun m => StoreCall.messageDelete m.ID) ++
      (match (chunk.filter (fun m => decide (now - m.Timestamp < retentionNanos))).map
          (fun m => m.ID) with
       | [] => []
       | [id] => [StoreCall.messageDelete id]
       | ids => [StoreCall.bulkDelete ids]) := by
  refine ⟨chunks100_length_le chunk messages hmem, ?_⟩
  unfold chunkCalls
  rw [chunkLoop_eq_partition]
  rcases h : (chunk.filter (fun m => decide (now - m.Timestamp < retentionNanos))).map
      (fun m => m.ID) with _ | ⟨a, _ | ⟨b, t⟩⟩ <;> simp [h]

set_option maxRecDepth 10000 in
/-- C1 witness: a two-message history in one chunk, one young and one old
message at `now = retentionNanos` (the old one sits exactly at the
threshold, so it is individually deleted and the young partition is a
singleton). -/
theorem C1_chunk_partition_witness :
    ([Message.mk "a" 1, Message.mk "b" 0] : List Message).length ≤ 100 ∧
    chunkCalls retentionNanos [Message.mk "a" 1, Message.mk "b" 0] =
      (([Message.mk "a" 1, Message.mk "b" 0]).filter
          (fun m => decide (¬(retentionNanos - m.Timestamp < retentionNanos)))).map
          (fun m => StoreCall.messageDelete m.ID) ++
      (match (([Message.mk "a" 1, Message.mk "b" 0]).filter
          (fun m => decide (retentionNanos - m.Timestamp < retentionNanos))).map
          (fun m => m.ID) with
       | [] => []
       | [id] => [StoreCall.messageDelete id]
       | ids => [StoreCall.bulkDelete ids]) :=
  C1_chunk_partition retentionNanos [Message.mk "a" 1, Message.mk "b" 0]
    [Message.mk "a" 1, Message.mk "b" 0] (by decide)

set_option maxRecDepth 100000 in
/-- C3: on a channel of exactly 250 messages, all younger than 14 days, one
purge run issues exactly three bulk deletes covering 100, 100 and 50
messages, and zero individual deletes. -/
theorem C3_250_young_messages :
    ((purgeChannelRun 0 (mkMsgs 250) 251).filterMap
        (fun c => match c with
          | StoreCall.bulkDelete ids => some ids.length
          | _ => none)) = [100, 100, 50] ∧
    ((purgeChannelRun 0 (mkMsgs 250) 251).filter
        (fun c => match c with
          | StoreCall.messageDelete _ => true
          | _ => false)) = [] := by
  constructor <;> decide

/-- The pagination loop of `purgeChannel` against a fallible client: the
k-th entry of the oracle is what the k-th `ChannelMessages` call produces
(`none` is an error). On an error the code logs "Error getting messages:"
and breaks out of the fetch loop, keeping the messages accumulated so far.
Returns (accumulated messages, number of fetch calls made, log lines). -/
def fetchPagesE : List (Option (List Message)) → List Message × Nat × List String
  | [] => ([], 0, [])
  | none :: _ => ([], 1, ["Error getting messages:"])
  | some msgs :: rest =>
    if msgs = [] then ([], 1, [])
    else if msgs.length < 100 then (msgs, 1, [])
    else
      let (acc, n, logs) := fetchPagesE rest
      (msgs ++ acc, n + 1, logs)

/-- The chunk inner loop with per-delete outcomes: as `chunkLoop`, but a
failed `ChannelMessageDelete` (`delOk id = false`) additionally logs
"Error deleting message:"; the loop continues either way, exactly as the
code only logs the error. -/
def chunkLoopE (now : Int) (delOk : String → Bool) :
    List Message → List String × List StoreCall × List String
  | [] => ([], [], [])
  | m :: rest =>
    let (ids, calls, logs) := chunkLoopE now delOk rest
    if now - m.Timestamp < retentionNanos then (m.ID :: ids, calls, logs)
    else (ids, StoreCall.messageDelete m.ID :: calls,
      (if delOk m.ID then [] else ["Error deleting message:"]) ++ logs)

/-- One chunk iteration with outcomes: a failed bulk delete
(`bulkOk ids = false`) or failed single delete logs and the iteration moves
on to the next chunk regardless. -/
def chunkCallsE (now : Int) (delOk : String → Bool) (bulkOk : List String → Bool)
    (chunk : List Message) : List StoreCall × List String :=
  let (messageIDs, calls, logs) := chunkLoopE now delOk chunk
  match messageIDs with
  | [] => (calls, logs)
  | [id] => (calls ++ [StoreCall.messageDelete id],
      logs ++ (if delOk id then [] else ["Error deleting message:"]))
  | ids => (calls ++ [StoreCall.bulkDelete ids],
      logs ++ (if bulkOk ids then [] else ["Error bulk deleting messages:"]))

/-- The deletion phase with outcomes: calls and logs over all chunks. -/
def purgeDeleteCallsE (now : Int) (delOk : String → Bool)
    (bulkOk : List String → Bool) (messages : List Message) :
    List StoreCall × List String :=
  (((chunks100 messages).map (fun c => (chunkCallsE now delOk bulkOk c).1)).flatten,
   ((chunks100 messages).map (fun c => (chunkCallsE now delOk bulkOk c).2)).flatten)

lemma chunkLoopE_eq_chunkLoop (now : Int) (delOk : String → Bool)
    (chunk : List Message) :
    ((chunkLoopE now delOk chunk).1, (chunkLoopE now delOk chunk).2.1)
      = chunkLoop now chunk := by
  induction chunk with
  | nil => simp [chunkLoopE, chunkLoop]
  | cons m rest ih =>
      by_cases hm : now - m.Timestamp < retentionNanos <;>
        simp [chunkLoopE, chunkLoop, hm, ← ih]

/-- The calls the deletion phase issues do not depend on delete outcomes:
they equal the outcome-free calls. -/
lemma chunkCallsE_fst (now : Int) (delOk : String → Bool)
    (bulkOk : List String → Bool) (chunk : List Message) :
    (chunkCallsE now delOk bulkOk chunk).1 = chunkCalls now chunk := by
  unfold chunkCallsE chunkCalls
  have h := chunkLoopE_eq_chunkLoop now delOk chunk
  rw [← h]
  rcases hids : (chunkLoopE now delOk chunk).1 with _ | ⟨a, _ | ⟨b, t⟩⟩ <;> simp [hids]

/-- A failed individual delete inside a chunk is logged. -/
lemma chunkLoopE_logs_failure (now : Int) (delOk : String → Bool) :
    ∀ (chunk : List Message) (m : Message), m ∈ chunk →
      ¬(now - m.Timestamp < retentionNanos) → delOk m.ID = false →
      "Error deleting message:" ∈ (chunkLoopE now delOk chunk).2.2 := by
  intro chunk
  induction chunk with
  | nil => intro m hm; simp at hm
  | cons x rest ih =>
      intro m hm hold hfail
      rcases List.mem_cons.mp hm with rfl | hm'
      · simp [chunkLoopE, if_neg hold, hfail]
      · by_cases hx : now - x.Timestamp < retentionNanos
        · simpa [chunkLoopE, hx] using ih m hm' hold hfail
        · simp only [chunkLoopE, if_neg hx]
          refine List.mem_append.mpr (Or.inr ?_)
          exact ih m hm' hold hfail

/-- Log lines produced inside the chunk loop survive into the chunk's
result. -/
lemma chunkCallsE_logs_mono (now : Int) (delOk : String → Bool)
    (bulkOk : List String → Bool) (chunk : List Message) (s : String)
    (h : s ∈ (chunkLoopE now delOk chunk).2.2) :
    s ∈ (chunkCallsE now delOk bulkOk chunk).2 := by
  unfold chunkCallsE
  rcases hids : (chunkLoopE now delOk chunk).1 with _ | ⟨a, _ | ⟨b, t⟩⟩ <;>
    simp [hids, h]

/-- The issued delete-phase call sequence never depends on delete or
bulk-delete outcomes. -/
lemma purgeDeleteCallsE_fst (now : Int) (delOk : String → Bool)
    (bulkOk : List String → Bool) (messages : List Message) :
    (purgeDeleteCallsE now delOk bulkOk messages).1
      = purgeDeleteCalls now messages := by
  unfold purgeDeleteCallsE purgeDeleteCalls
  simp [chunkCallsE_fst]

/-- A run whose first fetches return full pages and whose next fetch fails
stops fetching there: it has made exactly one call per full page plus the
failed one, logged the fetch error, and keeps exactly the messages of the
pages fetched before the failure. -/
lemma fetchPagesE_prefix_full (rest : List (Option (List Message))) :
    ∀ pre : List (List Message), (∀ p ∈ pre, p.length = 100) →
      fetchPagesE (pre.map some ++ none :: rest)
        = (pre.flatten, pre.length + 1, ["Error getting messages:"]) := by
  intro pre
  induction pre with
  | nil => intro _; simp [fetchPagesE]
  | cons p ps ih =>
      intro h
      have hp : p.length = 100 := h p (List.mem_cons_self p ps)
      have hne : ¬(p = []) := by
        intro he
        rw [he] at hp
        simp at hp
      have ih' := ih (fun q hq => h q (List.mem_cons_of_mem p hq))
      simp only [List.map_cons, List.cons_append, fetchPagesE, if_neg hne,
        if_neg (by omega : ¬ p.length < 100), ih']
      simp [ih']

set_option maxRecDepth 100000 in
/-- C6 counterexample: a failed page fetch DOES abort the remaining
fetches. With a full first page and a failing second fetch, the run makes
only 2 fetch calls and never obtains the 50 messages the store would have
returned next, whereas the identical store with a succeeding second fetch
reaches a third call; the accumulated history after the failure is just the
first page. -/
theorem C6_counterexample :
    (fetchPagesE [some (mkMsgs 100), none, some (mkMsgs 50)]).2.1 = 2 ∧
    (fetchPagesE [some (mkMsgs 100), some (mkMsgs 100), some (mkMsgs 50)]).2.1 = 3 ∧
    (fetchPagesE [some (mkMsgs 100), none, some (mkMsgs 50)]).1 = mkMsgs 100 := by
  refine ⟨?_, ?_, ?_⟩ <;> decide

/-- C6 (amended): failures inside a purge run are contained, best-effort:
the delete-phase calls issued are exactly the outcome-free ones (no failed
individual or bulk delete aborts the remaining chunks), a failed individual
delete of an over-threshold message is logged, a failed bulk delete is
logged, and a failed page fetch is logged and stops further fetching while
keeping the pages fetched before the failure, which the run then processes
to completion (the deletion phase is a total function of those messages).
Nothing propagates outside the run. -/
theorem C6_failures_contained (now : Int) (messages chunk : List Message)
    (delOk : String → Bool) (bulkOk : List String → Bool) (m : Message)
    (a b : String) (t : List String)
    (pre : List (List Message)) (rest : List (Option (List Message)))
    (hm : m ∈ chunk) (hold : ¬(now - m.Timestamp < retentionNanos))
    (hfail : delOk m.ID = false)
    (hids : (chunkLoopE now delOk chunk).1 = a :: b :: t)
    (hbulk : bulkOk (a :: b :: t) = false)
    (hfull : ∀ p ∈ pre, p.length = 100) :
    (purgeDeleteCallsE now delOk bulkOk messages).1 = purgeDeleteCalls now messages ∧
    "Error deleting message:" ∈ (chunkCallsE now delOk bulkOk chunk).2 ∧
    "Error bulk deleting messages:" ∈ (chunkCallsE now delOk bulkOk chunk).2 ∧
    fetchPagesE (pre.map some ++ none :: rest)
      = (pre.flatten, pre.length + 1, ["Error getting messages:"]) := by
  refine ⟨purgeDeleteCallsE_fst now delOk bulkOk messages, ?_, ?_, ?_⟩
  · exact chunkCallsE_logs_mono now delOk bulkOk chunk _
      (chunkLoopE_logs_failure now delOk chunk m hm hold hfail)
  · unfold chunkCallsE
    simp [hids, hbulk]
  · exact fetchPagesE_prefix_full rest pre hfull

/-- C6 amended witness: one chunk with one over-threshold message whose
delete fails and two young messages whose bulk delete fails, plus a fetch
oracle failing on its second call. -/
theorem C6_failures_contained_witness :
    (purgeDeleteCallsE retentionNanos (fun _ => false) (fun _ => false)
        [Message.mk "x" 0]).1
      = purgeDeleteCalls retentionNanos [Message.mk "x" 0] ∧
    "Error deleting message:" ∈
      (chunkCallsE retentionNanos (fun _ => false) (fun _ => false)
        [Message.mk "x" 0, Message.mk "y" 1, Message.mk "z" 1]).2 ∧
    "Error bulk deleting messages:" ∈
      (chunkCallsE retentionNanos (fun _ => false) (fun _ => false)
        [Message.mk "x" 0, Message.mk "y" 1, Message.mk "z" 1]).2 ∧
    fetchPagesE ([mkMsgs 100].map some ++ none :: [])
      = ([mkMsgs 100].flatten, [mkMsgs 100].length + 1,
          ["Error getting messages:"]) :=
  C6_failures_contained retentionNanos [Message.mk "x" 0]
    [Message.mk "x" 0, Message.mk "y" 1, Message.mk "z" 1]
    (fun _ => false) (fun _ => false) (Message.mk "x" 0) "y" "z" []
    [mkMsgs 100] [] (by decide) (by decide) (by decide) (by decide) (by decide)
    (by decide)

/-- C4 counterexample: at a tick whose captured `now` equals a task's
`NextPurge` exactly (`now = 5`, `NextPurge = 5`), the claimed equivalence
"triggered iff nextDue ≤ now" fails: `nextDue ≤ now` holds but the channel
is not triggered, because the code tests `now.After(task.NextPurge)`,
which is strict. -/
theorem C4_counterexample :
    ¬ (("c" ∈ (purgeCheckerTick 5 [("c", ⟨60, 5⟩)]).2) ↔ ((5 : Int) ≤ 5)) := by
  decide

/-- C4 (amended): on a scheduler tick with captured time `now`, a channel is
triggered if and only if some entry for it has `NextPurge` strictly earlier
than `now` (a task with `NextPurge = now` is NOT due); the due-check never
removes entries: the registry keeps exactly the same channel keys. -/
theorem C4_due_iff_strictly_earlier (now : Int) (reg : TaskRegistry) (c : String) :
    (c ∈ (purgeCheckerTick now reg).2 ↔ ∃ t, (c, t) ∈ reg ∧ t.NextPurge < now) ∧
    (purgeCheckerTick now reg).1.map Prod.fst = reg.map Prod.fst := by
  constructor
  · simp only [purgeCheckerTick, List.mem_map, List.mem_filter, decide_eq_true_eq]
    constructor
    · rintro ⟨⟨a, t⟩, ⟨hmem, hlt⟩, rfl⟩
      exact ⟨t, hmem, hlt⟩
    · rintro ⟨t, hmem, hlt⟩
      exact ⟨(c, t), ⟨hmem, hlt⟩, rfl⟩
  · simp [purgeCheckerTick]

/-- C5: on a scheduler tick, every task the code finds due (strict
`now.After`) has its `NextPurge` advanced to `now + Interval` by the tick
itself — the tick is a pure function of `now` and the registry, so the
advancement does not wait for (and is independent of) the launched purge
run — the entry is advanced in place (same channel, same `Interval`), the
registry keeps the same keys, and the purge for that channel is launched. -/
theorem C5_optimistic_reschedule (now : Int) (reg : TaskRegistry) (c : String)
    (t : PurgeTask) (hmem : (c, t) ∈ reg) (hdue : t.NextPurge < now) :
    (c, PurgeTask.mk t.Interval (now + t.Interval)) ∈ (purgeCheckerTick now reg).1 ∧
    (purgeCheckerTick now reg).1.map Prod.fst = reg.map Prod.fst ∧
    c ∈ (purgeCheckerTick now reg).2 := by
  refine ⟨?_, ?_, ?_⟩
  · simp only [purgeCheckerTick, List.mem_map]
    refine ⟨(c, t), hmem, ?_⟩
    simp [advanceTask, hdue]
  · simp [purgeCheckerTick]
  · simp only [purgeCheckerTick, List.mem_map, List.mem_filter, decide_eq_true_eq]
    exact ⟨(c, t), ⟨hmem, hdue⟩, rfl⟩

/-- C5 witness: a concrete registry with one due task. -/
theorem C5_optimistic_reschedule_witness :
    ("c", PurgeTask.mk 60 (1 + 60)) ∈ (purgeCheckerTick 1 [("c", PurgeTask.mk 60 0)]).1 ∧
    (purgeCheckerTick 1 [("c", PurgeTask.mk 60 0)]).1.map Prod.fst
      = [("c", PurgeTask.mk 60 0)].map Prod.fst ∧
    "c" ∈ (purgeCheckerTick 1 [("c", PurgeTask.mk 60 0)]).2 :=
  C5_optimistic_reschedule 1 [("c", PurgeTask.mk 60 0)] "c" (PurgeTask.mk 60 0)
    (by decide) (by decide)

/-- C7: a set-interval command whose unit is neither "hours" nor "days"
returns before creating any task or sending any response: the registry is
unchanged and no response is produced. -/
theorem C7_unknown_unit_ignored (now : Int) (reg : TaskRegistry) (c : String)
    (v : Int) (u : String) (h1 : u ≠ "hours") (h2 : u ≠ "days") :
    handleSetPurgeInterval now reg c v u = (reg, none) := by
  unfold handleSetPurgeInterval
  split <;> simp_all

/-- C7 witness: the unit "weeks" is silently ignored. -/
theorem C7_unknown_unit_ignored_witness :
    handleSetPurgeInterval 0 [] "c" 3 "weeks" = ([], none) :=
  C7_unknown_unit_ignored 0 [] "c" 3 "weeks" (by decide) (by decide)

/-- C8 counterexample: a write CAN regress `NextPurge`. Setting a 2-hour
interval at time 0 stores `NextPurge = 2*timeHour`; immediately re-setting a
1-hour interval overwrites it with `NextPurge = 1*timeHour`, strictly earlier
than the value the task held before the write — refuting "no write ever
assigns a nextDue value earlier than the value it held before". -/
theorem C8_counterexample :
    lookupTask (handleSetPurgeInterval 0 [] "c" 2 "hours").1 "c"
        = some ⟨2 * timeHour, 0 + 2 * timeHour⟩ ∧
    lookupTask
        (handleSetPurgeInterval 0 (handleSetPurgeInterval 0 [] "c" 2 "hours").1
          "c" 1 "hours").1 "c"
        = some ⟨1 * timeHour, 0 + 1 * timeHour⟩ ∧
    (0 + 1 * timeHour : Int) < 0 + 2 * timeHour := by
  refine ⟨?_, ?_, ?_⟩ <;> decide

/-- C8 (amended): every write stores `NextPurge = now + interval` as
computed at that write (the set-interval write for both units, with the
interval being the program's wrapping int64 product), and the
scheduler-tick advancement never regresses `NextPurge` for a task with a
nonnegative interval; but a set-interval write may assign an earlier
`NextPurge` than the task held before (see the counterexample: re-setting
with a shorter interval). -/
theorem C8_nextdue_last_computed (now : Int) (reg : TaskRegistry) (c : String)
    (v : Int) (t : PurgeTask) (hpos : 0 ≤ t.Interval) :
    lookupTask (handleSetPurgeInterval now reg c v "hours").1 c
        = some ⟨durMul v timeHour, now + durMul v timeHour⟩ ∧
    lookupTask (handleSetPurgeInterval now reg c v "days").1 c
        = some ⟨durMul (durMul v timeHour) 24, now + durMul (durMul v timeHour) 24⟩ ∧
    t.NextPurge ≤ (advanceTask now t).NextPurge := by
  refine ⟨?_, ?_, ?_⟩
  · exact lookupTask_setTask reg c _
  · exact lookupTask_setTask reg c _
  · unfold advanceTask
    split
    · rename_i h
      have : t.NextPurge ≤ now := le_of_lt h
      simpa using le_trans this (by linarith)
    · exact le_refl _

/-- C8 amended witness: a concrete task with nonnegative interval. -/
theorem C8_nextdue_last_computed_witness :
    lookupTask (handleSetPurgeInterval 0 [] "c" 2 "hours").1 "c"
        = some ⟨durMul 2 timeHour, 0 + durMul 2 timeHour⟩ ∧
    lookupTask (handleSetPurgeInterval 0 [] "c" 2 "days").1 "c"
        = some ⟨durMul (durMul 2 timeHour) 24, 0 + durMul (durMul 2 timeHour) 24⟩ ∧
    (PurgeTask.mk 60 0).NextPurge ≤ (advanceTask 0 (PurgeTask.mk 60 0)).NextPurge :=
  C8_nextdue_last_computed 0 [] "c" 2 (PurgeTask.mk 60 0) (by decide)

/-- C10 counterexample: the claim's "for non-positive values [nextDue]
lies at or before now" fails under Go's wrapping int64 duration product.
At `v = -3000000` hours (a non-positive value with a recognized unit, and
no option bounds exist upstream), `time.Duration(-3000000) * time.Hour`
overflows int64 and wraps to +7646744073709551616 ns (about +242 years),
so the stored `NextPurge = 0 + 7646744073709551616` lies strictly after
`now = 0`. -/
theorem C10_counterexample :
    lookupTask (handleSetPurgeInterval 0 [] "c" (-3000000) "hours").1 "c"
      = some ⟨7646744073709551616, 7646744073709551616⟩ ∧
    (-3000000 : Int) ≤ 0 ∧
    ¬((7646744073709551616 : Int) ≤ 0) := by
  refine ⟨?_, ?_, ?_⟩ <;> decide

/-- C10 (amended): for any integer interval value (zero and negative
included) with a recognized unit, the handler performs no positivity
validation: it stores a task with `NextPurge = now + interval`, where
`interval` is the program's wrapping int64 product of the value and the
unit, and sends the confirmation response; for non-positive values whose
product does not overflow int64 the stored `NextPurge` lies at or before
`now` (an overflowing negative value can wrap positive, see the
counterexample). -/
theorem C10_no_positivity_validation (now : Int) (reg : TaskRegistry)
    (c : String) (v : Int) :
    (handleSetPurgeInterval now reg c v "hours").2
        = some ("Purge interval set to " ++ toString v ++ " " ++ "hours"
            ++ " for this channel.") ∧
    lookupTask (handleSetPurgeInterval now reg c v "hours").1 c
        = some ⟨durMul v timeHour, now + durMul v timeHour⟩ ∧
    (handleSetPurgeInterval now reg c v "days").2
        = some ("Purge interval set to " ++ toString v ++ " " ++ "days"
            ++ " for this channel.") ∧
    lookupTask (handleSetPurgeInterval now reg c v "days").1 c
        = some ⟨durMul (durMul v timeHour) 24, now + durMul (durMul v timeHour) 24⟩ ∧
    (v ≤ 0 → -(2 ^ 63) ≤ v * timeHour → now + durMul v timeHour ≤ now) ∧
    (v ≤ 0 → -(2 ^ 63) ≤ v * timeHour * 24 →
      now + durMul (durMul v timeHour) 24 ≤ now) := by
  refine ⟨rfl, lookupTask_setTask reg c _, rfl, lookupTask_setTask reg c _, ?_, ?_⟩
  all_goals intro hv hlo
  all_goals have hH : (0 : Int) ≤ timeHour := by norm_num [timeHour]
  all_goals have h1 : v * timeHour ≤ 0 := mul_nonpos_iff.mpr (Or.inr ⟨hv, hH⟩)
  · have hid : durMul v timeHour = v * timeHour :=
      wrapInt64_eq_self (v * timeHour) hlo (by norm_num; linarith)
    rw [hid]
    linarith
  · have h24 : v * timeHour * 24 ≤ v * timeHour := by linarith
    have h124 : v * timeHour * 24 ≤ 0 := by linarith
    have hin : durMul v timeHour = v * timeHour :=
      wrapInt64_eq_self (v * timeHour) (by linarith) (by norm_num; linarith)
    have hout : durMul (v * timeHour) 24 = v * timeHour * 24 :=
      wrapInt64_eq_self (v * timeHour * 24) hlo (by norm_num; linarith)
    rw [hin, hout]
    linarith

/-- C10 witness: a negative interval value within the int64 range is
accepted unchanged and yields a past-or-present due time. -/
theorem C10_no_positivity_validation_witness :
    (handleSetPurgeInterval 0 [] "c" (-2) "hours").2
        = some ("Purge interval set to " ++ toString (-2 : Int) ++ " " ++ "hours"
            ++ " for this channel.") ∧
    lookupTask (handleSetPurgeInterval 0 [] "c" (-2) "hours").1 "c"
        = some ⟨durMul (-2) timeHour, 0 + durMul (-2) timeHour⟩ ∧
    (handleSetPurgeInterval 0 [] "c" (-2) "days").2
        = some ("Purge interval set to " ++ toString (-2 : Int) ++ " " ++ "days"
            ++ " for this channel.") ∧
    lookupTask (handleSetPurgeInterval 0 [] "c" (-2) "days").1 "c"
        = some ⟨durMul (durMul (-2) timeHour) 24, 0 + durMul (durMul (-2) timeHour) 24⟩ ∧
    ((-2 : Int) ≤ 0 → -(2 ^ 63) ≤ (-2 : Int) * timeHour →
      (0 : Int) + durMul (-2) timeHour ≤ 0) ∧
    ((-2 : Int) ≤ 0 → -(2 ^ 63) ≤ (-2 : Int) * timeHour * 24 →
      (0 : Int) + durMul (durMul (-2) timeHour) 24 ≤ 0) :=
  C10_no_positivity_validation 0 [] "c" (-2)

end Eule
